import Mathlib

/-!
Verification development for the NetWorthApp repository.

The definitions below are a shallow embedding of the TypeScript source:
  - src/app/api/balance-entries/route.ts            (POST handler)
  - src/app/api/balance-entries/[id]/route.ts       (PUT handler, Zod update schemas)
  - src/app/api/dashboard/net-worth-summary/route.ts (summary GET and trend GET)
  - src/components/fixed-deposits/FixedDepositManager.tsx (calculateMaturityValue)
  - src/app/api/addresses/route.ts and the addresses [id] PUT handler

JSON numbers are modelled as exact rationals; Prisma Decimal arithmetic
(plus, minus) is exact on these values, and toNumber at the output boundary
is modelled as the identity.
-/

/-! ### UTC dates

A JavaScript Date, viewed through the accessors the sources use:
getUTCFullYear, getUTCMonth (0-indexed), getUTCDate, and the remaining
time-of-day in milliseconds.  Date.UTC(y, m, 1, 0, 0, 0, 0) constructs
the record with day 1 and msOfDay 0.  Chronological order on valid dates
is lexicographic on (year, month, day, msOfDay). -/
structure DateU where
  year : Int
  month : Nat
  day : Nat
  msOfDay : Nat
deriving DecidableEq, Repr

/-- Chronological strict order on DateU (models numeric comparison of
Date.getTime values for valid dates). -/
def dateLtB (a b : DateU) : Bool :=
  if a.year ≠ b.year then decide (a.year < b.year)
  else if a.month ≠ b.month then decide (a.month < b.month)
  else if a.day ≠ b.day then decide (a.day < b.day)
  else decide (a.msOfDay < b.msOfDay)

/-- Chronological non-strict order on DateU. -/
def dateLeB (a b : DateU) : Bool :=
  dateLtB a b || decide (a = b)

/-- Two dates fall in the same UTC calendar month. -/
def sameUTCMonth (a b : DateU) : Prop :=
  a.year = b.year ∧ a.month = b.month

instance (a b : DateU) : Decidable (sameUTCMonth a b) := by
  unfold sameUTCMonth; infer_instance

/-- Embeds normalizeToFirstOfMonthUTC from
src/app/api/balance-entries/route.ts:
new Date(Date.UTC(d.getUTCFullYear(), d.getUTCMonth(), 1, 0, 0, 0, 0)). -/
def normalizeToFirstOfMonthUTC (d : DateU) : DateU :=
  ⟨d.year, d.month, 1, 0⟩

/-! ### JSON values and Zod field parsing

A JSON value as it can appear in a request payload at one of the keys the
update schemas read.  jnum carries an exact rational (the value of the
JSON number literal). -/
inductive JVal where
  | jnull : JVal
  | jnum (q : ℚ) : JVal
  | jstr (s : String) : JVal
  | jbool (b : Bool) : JVal
deriving DecidableEq, Repr

/-- val.replace of commas by the empty string, as in the numeric
preprocess steps of the Zod schemas. -/
def stripCommas (s : String) : String :=
  String.mk (s.data.filter (fun c => c ≠ ','))

/-- Models the JavaScript String.prototype.toUpperCase on ASCII currency
codes, as applied by the POST handler to both currencies. -/
def toUpperCase (s : String) : String :=
  String.mk (s.data.map Char.toUpper)

/-- Natural number denoted by a list of decimal digit characters. -/
def digitsVal (l : List Char) : Nat :=
  l.foldl (fun acc c => 10 * acc + (c.toNat - 48)) 0

/-- Model of the JavaScript parseFloat builtin on plain decimal literals:
optional leading whitespace, optional sign, digits with an optional
fractional part, optional decimal exponent; the longest valid prefix is
taken and none is returned when no prefix parses (NaN).  The Infinity
literal is not modelled. -/
def jsParseFloat (s : String) : Option ℚ :=
  let cs := s.data.dropWhile (fun c => c = ' ' || c = '\t' || c = '\n' || c = '\r')
  let signNeg : Bool := cs.head? = some '-'
  let cs := if cs.head? = some '-' || cs.head? = some '+' then cs.tail else cs
  let intPart := cs.takeWhile Char.isDigit
  let cs := cs.dropWhile Char.isDigit
  let fracPart :=
    if cs.head? = some '.' then cs.tail.takeWhile Char.isDigit else []
  let rest :=
    if cs.head? = some '.' then cs.tail.dropWhile Char.isDigit else cs
  if intPart = [] ∧ fracPart = [] then none
  else
    let mantissa : ℚ :=
      (digitsVal intPart : ℚ) + (digitsVal fracPart : ℚ) / ((10 : ℚ) ^ fracPart.length)
    let expPart : Int :=
      if rest.head? = some 'e' || rest.head? = some 'E' then
        let r := rest.tail
        let eNeg : Bool := r.head? = some '-'
        let r := if r.head? = some '-' || r.head? = some '+' then r.tail else r
        let eDigits := r.takeWhile Char.isDigit
        if eDigits = [] then 0
        else if eNeg then -(digitsVal eDigits : Int) else (digitsVal eDigits : Int)
      else 0
    let v := mantissa * (10 : ℚ) ^ expPart
    some (if signNeg then -v else v)

/-- Raw JSON payload of a PUT /api/balance-entries/[id] request, restricted
to the keys the two update schemas read; none means the key is absent.
Any other key of the payload is stripped by Zod (non-strict object
schemas) and can affect nothing. -/
structure UpdatePayload where
  balanceOriginal : Option JVal := none
  exchangeRateToBase : Option JVal := none
  notes : Option JVal := none
  locked : Option JVal := none
deriving DecidableEq, Repr

/-- Field balanceOriginal of updateBalanceEntrySchema:
z.preprocess(undefined or null or empty-string to undefined, string to
parseFloat with commas stripped, number kept, else undefined;
z.number()).optional().  The outer optional short-circuits only on an
absent key; a preprocess result of undefined fails the inner z.number(). -/
def parseFieldBalanceOriginal : Option JVal → Except Unit (Option ℚ)
  | none => .ok none
  | some .jnull => .error ()
  | some (.jstr s) =>
      if s = "" then .error ()
      else match jsParseFloat (stripCommas s) with
        | some q => .ok (some q)
        | none => .error ()
  | some (.jnum q) => .ok (some q)
  | some (.jbool _) => .error ()

/-- Field exchangeRateToBase of updateBalanceEntrySchema:
z.preprocess(empty-string or null or undefined to null, string to
parseFloat, number kept, else undefined;
z.number().positive().nullable().optional()).  Note the preprocess maps an
absent key to null, so the parsed object always carries the key unless the
raw value was of an unexpected type (then the property is undefined).
Result: none = property undefined, some none = null, some (some r) = rate. -/
def parseFieldExchangeRate : Option JVal → Except Unit (Option (Option ℚ))
  | none => .ok (some none)
  | some .jnull => .ok (some none)
  | some (.jstr s) =>
      if s = "" then .ok (some none)
      else match jsParseFloat (stripCommas s) with
        | some q => if 0 < q then .ok (some (some q)) else .error ()
        | none => .error ()
  | some (.jnum q) => if 0 < q then .ok (some (some q)) else .error ()
  | some (.jbool _) => .ok none

/-- Field notes: z.string().nullable().optional() followed by a transform
of the empty string to null.  Result: none = absent, some none = set null,
some (some s) = set s. -/
def parseFieldNotes : Option JVal → Except Unit (Option (Option String))
  | none => .ok none
  | some .jnull => .ok (some none)
  | some (.jstr s) => .ok (some (if s = "" then none else some s))
  | some (.jnum _) => .error ()
  | some (.jbool _) => .error ()

/-- Field locked: z.boolean().optional(). -/
def parseFieldLocked : Option JVal → Except Unit (Option Bool)
  | none => .ok none
  | some (.jbool b) => .ok (some b)
  | some _ => .error ()

/-- Parse result of updateBalanceEntrySchema. -/
structure ParsedUpdate where
  balanceOriginal : Option ℚ
  exchangeRateToBase : Option (Option ℚ)
  notes : Option (Option String)
  locked : Option Bool
deriving DecidableEq, Repr

/-- Embeds updateBalanceEntrySchema.safeParse from
src/app/api/balance-entries/[id]/route.ts. -/
def parseUpdateBalanceEntry (p : UpdatePayload) : Except Unit ParsedUpdate := do
  let bo ← parseFieldBalanceOriginal p.balanceOriginal
  let ex ← parseFieldExchangeRate p.exchangeRateToBase
  let no ← parseFieldNotes p.notes
  let lo ← parseFieldLocked p.locked
  .ok ⟨bo, ex, no, lo⟩

/-- Parse result of updateLockedBalanceEntrySchema (notes and locked only;
every other key of the payload is stripped, not rejected). -/
structure ParsedLockedUpdate where
  notes : Option (Option String)
  locked : Option Bool
deriving DecidableEq, Repr

/-- Embeds updateLockedBalanceEntrySchema.safeParse from
src/app/api/balance-entries/[id]/route.ts. -/
def parseLockedUpdateBalanceEntry (p : UpdatePayload) : Except Unit ParsedLockedUpdate := do
  let no ← parseFieldNotes p.notes
  let lo ← parseFieldLocked p.locked
  .ok ⟨no, lo⟩

/-! ### Balance entries -/

/-- A stored BalanceEntry row.  balanceInBase and exchangeRateToBase are
nullable columns. -/
structure BalanceEntry where
  id : String
  accountId : String
  userId : String
  entryDate : DateU
  balanceOriginal : ℚ
  currency : String
  exchangeRateToBase : Option ℚ
  balanceInBase : Option ℚ
  locked : Bool
  notes : Option String
deriving DecidableEq, Repr

/-- Outcome of the PUT handler on an owned, existing entry:
forbidden is the 403 locked-entry response, badRequest the 400 validation
response, ok the 200 response carrying the updated row. -/
inductive PutResult where
  | forbidden : PutResult
  | badRequest : PutResult
  | ok (e : BalanceEntry) : PutResult
deriving DecidableEq, Repr

/-- The row written by the locked branch of the PUT handler: only notes
and locked change (the handler narrows dataToUpdate to these two
fields). -/
def lockedUpdatedEntry (existing : BalanceEntry) (d : ParsedLockedUpdate) : BalanceEntry :=
  { existing with
    notes := match d.notes with | none => existing.notes | some v => v,
    locked := match d.locked with | none => existing.locked | some b => b }

/-- The row written by the unlocked branch of the PUT handler.  The
handler always assigns balanceInBase: recomputed when the parsed data
carries balanceOriginal or a defined exchangeRateToBase (truthiness check
newExchangeRate and newExchangeRate greater than zero), otherwise
re-assigned its existing value. -/
def updatedEntry (existing : BalanceEntry) (d : ParsedUpdate) : BalanceEntry :=
  let newBalanceOriginal :=
    match d.balanceOriginal with
    | none => existing.balanceOriginal
    | some v => v
  let newExchangeRate :=
    match d.exchangeRateToBase with
    | none => existing.exchangeRateToBase
    | some v => v
  let newBalanceInBase : Option ℚ :=
    if d.balanceOriginal.isSome || d.exchangeRateToBase.isSome then
      some (match newExchangeRate with
        | some r => if 0 < r then newBalanceOriginal * r else newBalanceOriginal
        | none => newBalanceOriginal)
    else existing.balanceInBase
  { existing with
    balanceOriginal := newBalanceOriginal,
    exchangeRateToBase := newExchangeRate,
    balanceInBase := newBalanceInBase,
    notes := match d.notes with | none => existing.notes | some v => v,
    locked := match d.locked with | none => existing.locked | some b => b }

/-- Embeds the PUT handler of src/app/api/balance-entries/[id]/route.ts,
after the ownership lookup succeeded on existing. -/
def putBalanceEntry (existing : BalanceEntry) (p : UpdatePayload) : PutResult :=
  if existing.locked then
    match parseLockedUpdateBalanceEntry p with
    | .error _ => .forbidden
    | .ok d => .ok (lockedUpdatedEntry existing d)
  else
    match parseUpdateBalanceEntry p with
    | .error _ => .badRequest
    | .ok d => .ok (updatedEntry existing d)

/-- The stored row after a PUT request: the updated row on success, the
unchanged row otherwise (no write happens on 403 or 400). -/
def finalBalanceEntry (existing : BalanceEntry) (p : UpdatePayload) : BalanceEntry :=
  match putBalanceEntry existing p with
  | .ok e => e
  | _ => existing

/-! ### POST /api/balance-entries -/

/-- The slice of an Account row the POST handler reads. -/
structure Account where
  id : String
  userId : String
  currency : String
deriving DecidableEq, Repr

/-- A POST body after createBalanceEntrySchema.parse: the schema
validates exchangeRateToBase positive when present, but no theorem below
relies on that. -/
structure CreateData where
  accountId : String
  entryDate : DateU
  balanceOriginal : ℚ
  currency : String
  exchangeRateToBase : Option ℚ
  notes : Option String
  locked : Bool
deriving DecidableEq, Repr

/-- Outcome of the POST handler: notFound is the 404 account response,
currencyMismatch the 400 response, conflict the 409 duplicate response,
created the 201 response carrying the new row. -/
inductive PostResult where
  | notFound : PostResult
  | currencyMismatch : PostResult
  | conflict : PostResult
  | created (e : BalanceEntry) : PostResult
deriving DecidableEq, Repr

/-- Modelled from the spec: schema.prisma is not in the source tree.  The
spec states the invariant at most one entry per (account, month) and a
409 on duplicate creates, and the POST handler maps Prisma error P2002
with target [accountId, entryDate] to 409 — so the database enforces a
unique constraint on (accountId, entryDate).  prisma.balanceEntry.create
appends the row or fails with that constraint violation. -/
def dbCreateBalanceEntry (db : List BalanceEntry) (e : BalanceEntry) :
    Except Unit (List BalanceEntry) :=
  if db.any (fun e0 => e0.accountId = e.accountId && e0.entryDate = e.entryDate) then
    .error ()
  else
    .ok (db ++ [e])

/-- The base balance the POST handler computes: balanceOriginal * rate
when a rate is supplied and positive (truthiness check), else
balanceOriginal. -/
def createBalanceInBase (data : CreateData) : ℚ :=
  match data.exchangeRateToBase with
  | some r => if 0 < r then data.balanceOriginal * r else data.balanceOriginal
  | none => data.balanceOriginal

/-- The row the POST handler writes: normalized entry date, upper-cased
currency, computed base balance. -/
def createdEntry (userId newId : String) (data : CreateData) : BalanceEntry :=
  ⟨newId, data.accountId, userId, normalizeToFirstOfMonthUTC data.entryDate,
    data.balanceOriginal, toUpperCase data.currency, data.exchangeRateToBase,
    some (createBalanceInBase data), data.locked, data.notes⟩

/-- Embeds the POST handler of src/app/api/balance-entries/route.ts for an
authenticated user: account lookup and ownership check (404), currency
match check (400), entry date normalization, base-balance computation,
then the database create (409 on the unique-constraint violation).
Returns the outcome and the database after the request. -/
def postBalanceEntry (accounts : List Account) (db : List BalanceEntry)
    (userId newId : String) (data : CreateData) : PostResult × List BalanceEntry :=
  match accounts.find? (fun a => a.id = data.accountId) with
  | none => (.notFound, db)
  | some account =>
      if account.userId ≠ userId then (.notFound, db)
      else if toUpperCase account.currency ≠ toUpperCase data.currency then
        (.currencyMismatch, db)
      else
        match dbCreateBalanceEntry db (createdEntry userId newId data) with
        | .error _ => (.conflict, db)
        | .ok db2 => (.created (createdEntry userId newId data), db2)

/-! ### Invariants over balance entries -/

/-- The base-balance invariant of the spec: when a positive rate is
stored, balanceInBase equals balanceOriginal times the rate, otherwise it
equals balanceOriginal. -/
def baseInv (e : BalanceEntry) : Prop :=
  match e.exchangeRateToBase with
  | some r =>
      if 0 < r then e.balanceInBase = some (e.balanceOriginal * r)
      else e.balanceInBase = some e.balanceOriginal
  | none => e.balanceInBase = some e.balanceOriginal

instance (e : BalanceEntry) : Decidable (baseInv e) := by
  unfold baseInv
  rcases e.exchangeRateToBase with _ | r
  · infer_instance
  · dsimp only; infer_instance

/-- An entry date already normalized to UTC midnight on the first of its
month. -/
def entryDateNormalized (e : BalanceEntry) : Prop :=
  e.entryDate.day = 1 ∧ e.entryDate.msOfDay = 0

/-- Database invariant: every stored entry date is first-of-month UTC
midnight, and no two entries share an account and a UTC month. -/
def dbBalanceInv (db : List BalanceEntry) : Prop :=
  (∀ e ∈ db, entryDateNormalized e) ∧
  List.Pairwise
    (fun e1 e2 => ¬(e1.accountId = e2.accountId ∧ sameUTCMonth e1.entryDate e2.entryDate)) db

/-! ### Net-worth trend (second GET of
src/app/api/dashboard/net-worth-summary/route.ts) -/

/-- Category type enum of the Prisma schema, as used by the source:
AssetType.ASSET and AssetType.LIABILITY. -/
inductive AssetType where
  | ASSET : AssetType
  | LIABILITY : AssetType
deriving DecidableEq, Repr

/-- A balance entry as fetched by the trend handler: the entry date, the
nullable base balance, and the type of the account category when the
account has one. -/
structure TrendEntry where
  entryDate : DateU
  balanceInBase : Option ℚ
  categoryType : Option AssetType
deriving DecidableEq, Repr

/-- The handler skips an entry when balanceInBase is null or the account
has no category type; this keeps the rest. -/
def keepEntry (e : TrendEntry) : Bool :=
  e.balanceInBase.isSome && e.categoryType.isSome

/-- The (UTC year, UTC month) bucket key of an entry.  The source keys the
aggregate object by the string of the year, a dash, and the two-digit
month + 1; that string determines and is determined by this pair. -/
def monthKey (e : TrendEntry) : Int × Nat :=
  (e.entryDate.year, e.entryDate.month)

/-- One monthly aggregate of the trend handler. -/
structure Bucket where
  key : Int × Nat
  totalAssets : ℚ
  totalLiabilities : ℚ
deriving DecidableEq, Repr

/-- Adds the base balance of a kept entry to the matching side of a
bucket. -/
def addBal (b : Bucket) (e : TrendEntry) : Bucket :=
  match e.categoryType with
  | some .ASSET => { b with totalAssets := b.totalAssets + e.balanceInBase.getD 0 }
  | some .LIABILITY => { b with totalLiabilities := b.totalLiabilities + e.balanceInBase.getD 0 }
  | none => b

/-- One step of the aggregation loop: skip filtered entries, update the
existing bucket of the month in place, or append a fresh bucket (object
insertion order). -/
def addToBuckets (acc : List Bucket) (e : TrendEntry) : List Bucket :=
  if keepEntry e then
    let k := monthKey e
    if acc.any (fun b => b.key = k) then
      acc.map (fun b => if b.key = k then addBal b e else b)
    else
      acc ++ [addBal ⟨k, 0, 0⟩ e]
  else acc

/-- An emitted trend record: the first-of-month UTC date and the three
totals. -/
structure TrendPoint where
  date : DateU
  totalAssets : ℚ
  totalLiabilities : ℚ
  netWorth : ℚ
deriving DecidableEq, Repr

/-- Inserts a point into a list sorted ascending by date.  Bucket dates
are pairwise distinct, so sorting by the numeric date comparator of the
source has this insertion sort as its unique sorted result. -/
def insertPoint (p : TrendPoint) : List TrendPoint → List TrendPoint
  | [] => [p]
  | q :: rest =>
      if dateLeB p.date q.date then p :: q :: rest else q :: insertPoint p rest

/-- Sort ascending by date. -/
def sortPoints (l : List TrendPoint) : List TrendPoint :=
  l.foldr insertPoint []

/-- Embeds the trend GET handler: filter and bucket all entries by UTC
month, emit one record per bucket (netWorth = assets minus liabilities),
sorted ascending by the first-of-month date.  An empty entry list yields
the empty series. -/
def netWorthTrend (entries : List TrendEntry) : List TrendPoint :=
  let buckets := entries.foldl addToBuckets []
  let points := buckets.map (fun b =>
    ⟨⟨b.key.1, b.key.2, 1, 0⟩, b.totalAssets, b.totalLiabilities,
      b.totalAssets - b.totalLiabilities⟩)
  sortPoints points

/-- Sum of base balances of kept ASSET entries of month k. -/
def assetSumAt (entries : List TrendEntry) (k : Int × Nat) : ℚ :=
  ((entries.filter (fun e =>
    keepEntry e && monthKey e = k && e.categoryType = some AssetType.ASSET)).map
      (fun e => e.balanceInBase.getD 0)).sum

/-- Sum of base balances of kept LIABILITY entries of month k. -/
def liabSumAt (entries : List TrendEntry) (k : Int × Nat) : ℚ :=
  ((entries.filter (fun e =>
    keepEntry e && monthKey e = k && e.categoryType = some AssetType.LIABILITY)).map
      (fun e => e.balanceInBase.getD 0)).sum

/-- Some kept entry falls in month k. -/
def keptMonthMem (entries : List TrendEntry) (k : Int × Nat) : Bool :=
  entries.any (fun e => keepEntry e && monthKey e = k)

/-! ### Net-worth summary (first GET of
src/app/api/dashboard/net-worth-summary/route.ts) -/

/-- An account as fetched by the summary handler: the type of its category
when it has one, and its balance entries as (entryDate, balanceInBase)
pairs. -/
structure SummaryAccount where
  categoryType : Option AssetType
  entries : List (DateU × Option ℚ)
deriving DecidableEq, Repr

/-- balanceEntries with orderBy entryDate desc, take 1: the entry of
maximum entry date (entry dates are unique per account). -/
def latestEntry : List (DateU × Option ℚ) → Option (DateU × Option ℚ)
  | [] => none
  | e :: rest => some (rest.foldl (fun best x => if dateLtB best.1 x.1 then x else best) e)

/-- Response of the summary handler. -/
structure Summary where
  totalAssets : ℚ
  totalLiabilities : ℚ
  netWorth : ℚ
  lastUpdatedDate : Option DateU
  accountsConsidered : Nat
  accountsWithBalancesCounted : Nat
deriving DecidableEq, Repr

/-- Loop state of the summary handler. -/
structure SummaryState where
  totalAssets : ℚ
  totalLiabilities : ℚ
  lastUpdatedDate : Option DateU
  accountsUsedInCalculation : Nat
deriving DecidableEq, Repr

/-- One iteration of the summary loop: an account with at least one entry
whose latest balanceInBase is not null is counted; its balance is added to
the asset or liability total according to the category type (no category:
counted but added nowhere); the last-updated date is raised. -/
def summaryStep (st : SummaryState) (a : SummaryAccount) : SummaryState :=
  match latestEntry a.entries with
  | none => st
  | some (d, bal) =>
      match bal with
      | none => st
      | some v =>
          let st1 : SummaryState :=
            { st with accountsUsedInCalculation := st.accountsUsedInCalculation + 1 }
          let st2 : SummaryState :=
            if a.categoryType = some AssetType.ASSET then
              { st1 with totalAssets := st1.totalAssets + v }
            else if a.categoryType = some AssetType.LIABILITY then
              { st1 with totalLiabilities := st1.totalLiabilities + v }
            else st1
          { st2 with lastUpdatedDate :=
              match st2.lastUpdatedDate with
              | none => some d
              | some prev => if dateLtB prev d then some d else some prev }

/-- Embeds the summary GET handler. -/
def netWorthSummary (accounts : List SummaryAccount) : Summary :=
  let st := accounts.foldl summaryStep ⟨0, 0, none, 0⟩
  ⟨st.totalAssets, st.totalLiabilities, st.totalAssets - st.totalLiabilities,
    st.lastUpdatedDate, accounts.length, st.accountsUsedInCalculation⟩

/-- Latest non-null base balance of an account, when it has one. -/
def acctLatestBase (a : SummaryAccount) : Option ℚ :=
  match latestEntry a.entries with
  | some (_, some v) => some v
  | _ => none

/-- Contribution of an account to totalAssets. -/
def acctAssetContrib (a : SummaryAccount) : ℚ :=
  if a.categoryType = some AssetType.ASSET then (acctLatestBase a).getD 0 else 0

/-- Contribution of an account to totalLiabilities. -/
def acctLiabContrib (a : SummaryAccount) : ℚ :=
  if a.categoryType = some AssetType.LIABILITY then (acctLatestBase a).getD 0 else 0

/-- Contribution of an account to accountsWithBalancesCounted. -/
def acctCountContrib (a : SummaryAccount) : Nat :=
  if (acctLatestBase a).isSome then 1 else 0

/-! ### Fixed-deposit maturity value
(src/components/fixed-deposits/FixedDepositManager.tsx) -/

/-- A JavaScript number: NaN, the two infinities, or a finite value
(modelled as an exact rational). -/
inductive JSNum where
  | nan : JSNum
  | inf : JSNum
  | ninf : JSNum
  | fin (q : ℚ) : JSNum
deriving DecidableEq, Repr

/-- JavaScript division of a number by a positive finite constant. -/
def jsDivPos (x : JSNum) (c : ℚ) : JSNum :=
  match x with
  | .nan => .nan
  | .inf => .inf
  | .ninf => .ninf
  | .fin q => .fin (q / c)

/-- JavaScript multiplication of a number by a finite value. -/
def jsMulFin (x : JSNum) (c : ℚ) : JSNum :=
  match x with
  | .nan => .nan
  | .inf => if 0 < c then .inf else if c < 0 then .ninf else .nan
  | .ninf => if 0 < c then .ninf else if c < 0 then .inf else .nan
  | .fin q => .fin (q * c)

/-- JavaScript addition of a finite value and a number. -/
def jsAddFin (c : ℚ) (x : JSNum) : JSNum :=
  match x with
  | .nan => .nan
  | .inf => .inf
  | .ninf => .ninf
  | .fin q => .fin (c + q)

/-- JavaScript multiplication of two numbers. -/
def jsMul (x y : JSNum) : JSNum :=
  match x, y with
  | .nan, _ => .nan
  | _, .nan => .nan
  | .inf, .inf => .inf
  | .inf, .ninf => .ninf
  | .ninf, .inf => .ninf
  | .ninf, .ninf => .inf
  | .inf, .fin q => if 0 < q then .inf else if q < 0 then .ninf else .nan
  | .ninf, .fin q => if 0 < q then .ninf else if q < 0 then .inf else .nan
  | .fin q, .inf => if 0 < q then .inf else if q < 0 then .ninf else .nan
  | .fin q, .ninf => if 0 < q then .ninf else if q < 0 then .inf else .nan
  | .fin a, .fin b => .fin (a * b)

/-- Milliseconds in 365.25 days: 1000 * 60 * 60 * 24 * 365.25. -/
def msPerYear : ℚ := 31557600000

/-- Embeds calculateMaturityValue from FixedDepositManager.tsx.  Dates are
valid Date values given by their millisecond timestamps.  The guard
returns the principal when principal or rate is NaN or the start is not
strictly before the maturity; otherwise the simple-interest formula
principal * (1 + (rate / 100) * durationInYears) is evaluated in
JavaScript number arithmetic. -/
def calculateMaturityValue (principal rate : JSNum) (startDate maturityDate : Int) : JSNum :=
  if principal = .nan || rate = .nan || maturityDate ≤ startDate then principal
  else
    let durationInMilliseconds : Int := maturityDate - startDate
    if durationInMilliseconds ≤ 0 then principal
    else
      let durationInYears : ℚ := (durationInMilliseconds : ℚ) / msPerYear
      jsMul principal (jsAddFin 1 (jsMulFin (jsDivPos rate 100) durationInYears))

/-! ### Addresses (src/app/api/addresses/route.ts and the addresses [id]
PUT handler).  Address fields other than id, userId, isCurrent never
interact with isCurrent and are omitted. -/

/-- An AddressHistory row restricted to the fields the current-address
logic reads. -/
structure Address where
  id : String
  userId : String
  isCurrent : Bool
deriving DecidableEq, Repr

/-- One row of the updateMany that demotes current addresses: a current
address of the user, not excluded by the id: not clause, is set
isCurrent false. -/
def demoteStep (u : String) (excludeId : Option String) (a : Address) : Address :=
  if a.userId = u && a.isCurrent &&
      (match excludeId with | some i => a.id ≠ i | none => true) then
    { a with isCurrent := false }
  else a

/-- prisma.addressHistory.updateMany setting isCurrent false on every
current address of the user, optionally excluding one id
(the id: not clause of the [id] PUT). -/
def demoteOthers (state : List Address) (userId : String) (excludeId : Option String) :
    List Address :=
  state.map (demoteStep userId excludeId)

/-- Embeds the POST /api/addresses handler for a parsed body: when
isCurrent is true, first demote every current address of the user, then
create the new address. -/
def postAddress (state : List Address) (userId newId : String) (isCurrent : Bool) :
    List Address :=
  let s := if isCurrent then demoteOthers state userId none else state
  s ++ [⟨newId, userId, isCurrent⟩]

/-- One row of the prisma update where id and userId: the matching row
takes the given isCurrent (absent means unchanged). -/
def setCurrentStep (userId id : String) (isCurrent : Option Bool) (a : Address) : Address :=
  if a.id = id && a.userId = userId then
    { a with isCurrent := match isCurrent with | none => a.isCurrent | some b => b }
  else a

/-- prisma.addressHistory.update where id and userId: sets isCurrent on
the matching row (none result is the 404 / P2025 path). -/
def updateAddressRow (state : List Address) (userId id : String) (isCurrent : Option Bool) :
    Option (List Address) :=
  if state.any (fun a => a.id = id && a.userId = userId) then
    some (state.map (setCurrentStep userId id isCurrent))
  else none

/-- Embeds the PUT /api/addresses/[id] handler for a parsed body whose
only relevant field is isCurrent (absent fields change nothing).  When
isCurrent is true: look up the target (404 when absent), demote other
current addresses only when the target is not already current, then
update the row. -/
def putAddress (state : List Address) (userId id : String) (isCurrent : Option Bool) :
    Option (List Address) :=
  match isCurrent with
  | some true =>
      match state.find? (fun a => a.id = id && a.userId = userId) with
      | none => none
      | some target =>
          let s := if target.isCurrent then state else demoteOthers state userId (some id)
          updateAddressRow s userId id (some true)
  | _ => updateAddressRow state userId id isCurrent

/-- Number of current addresses of a user. -/
def currentCount (state : List Address) (userId : String) : Nat :=
  (state.filter (fun a => a.userId = userId && a.isCurrent)).length

/-- First bucket of a given month key, as JavaScript object lookup by the
month string finds it. -/
def findBucket (acc : List Bucket) (k : Int × Nat) : Option Bucket :=
  acc.find? (fun b => b.key = k)

/-! ### Sample data used by witnesses and counterexamples -/

/-- January 2024, first of month, UTC midnight. -/
def sampleDateJan2024 : DateU := ⟨2024, 0, 1, 0⟩

/-- A locked stored entry. -/
def sampleLockedEntry : BalanceEntry :=
  ⟨"e1", "a1", "u1", sampleDateJan2024, 100, "USD", some 2, some 200, true, none⟩

/-- An unlocked stored entry with a stored exchange rate. -/
def sampleUnlockedEntry : BalanceEntry :=
  ⟨"e2", "a1", "u1", sampleDateJan2024, 10, "USD", some 2, some 20, false, none⟩

/-- A payload whose only key is balanceOriginal. -/
def payloadBalanceOnly : UpdatePayload := ⟨some (.jnum 999), none, none, none⟩

/-- A payload whose only key is notes. -/
def payloadNotesOnly : UpdatePayload := ⟨none, none, some (.jstr "x"), none⟩

/-- The empty payload. -/
def emptyPayload : UpdatePayload := ⟨none, none, none, none⟩

/-- An account owned by user u1. -/
def sampleAccount : Account := ⟨"a1", "u1", "USD"⟩

/-- A create body dated mid-January 2024 with a rate of 2. -/
def sampleCreateData : CreateData :=
  ⟨"a1", ⟨2024, 0, 15, 3600000⟩, 100, "usd", some 2, none, false⟩

/-- A second create body in the same month as sampleCreateData. -/
def sampleCreateData2 : CreateData :=
  ⟨"a1", ⟨2024, 0, 20, 0⟩, 50, "USD", none, none, false⟩

/-- Trend entries: January assets 100 and liabilities 20, February assets
120 and liabilities 20 (the worked example of the spec). -/
def trendSample : List TrendEntry :=
  [⟨⟨2024, 0, 5, 0⟩, some 100, some .ASSET⟩,
   ⟨⟨2024, 0, 9, 0⟩, some 20, some .LIABILITY⟩,
   ⟨⟨2024, 1, 5, 0⟩, some 120, some .ASSET⟩,
   ⟨⟨2024, 1, 6, 0⟩, some 20, some .LIABILITY⟩]

/-- A summary account with a non-null latest balance but no category. -/
def summaryAcctNoCat : SummaryAccount := ⟨none, [(⟨2024, 0, 1, 0⟩, some 5)]⟩

/-- A summary account of ASSET category with two historical entries. -/
def summaryAcctAsset : SummaryAccount :=
  ⟨some .ASSET, [(⟨2024, 0, 1, 0⟩, some 100), (⟨2024, 1, 1, 0⟩, some 120)]⟩

/-- Two addresses of one user, both marked current (the corrupted state
the spec itself admits can arise from a crash between the two
statements). -/
def addrTwoCurrent : List Address := [⟨"a", "u", true⟩, ⟨"b", "u", true⟩]

/-- Two addresses of one user, only the first current. -/
def addrOneCurrent : List Address := [⟨"a", "u", true⟩, ⟨"b", "u", false⟩]

/-! ### Theorems -/

/-- C3: for every update request on a locked entry that does not flip
locked to false, the stored balanceOriginal and exchangeRateToBase are
identical before and after the request, whatever the payload.  (The
hypothesis on the locked field is stated as the claim states it; the
locked branch of the handler never writes the amount fields, so the
property in fact holds for every payload.) -/
theorem c3_locked_amounts_frozen (existing : BalanceEntry) (p : UpdatePayload)
    (hlock : existing.locked = true)
    (_hflip : p.locked ≠ some (JVal.jbool false)) :
    (finalBalanceEntry existing p).balanceOriginal = existing.balanceOriginal ∧
    (finalBalanceEntry existing p).exchangeRateToBase = existing.exchangeRateToBase := by
  unfold finalBalanceEntry putBalanceEntry
  rw [hlock]
  simp only [if_pos rfl]
  cases hp : parseLockedUpdateBalanceEntry p with
  | error u => exact ⟨rfl, rfl⟩
  | ok d => exact ⟨rfl, rfl⟩

/-- C3 witness: the empty payload on the sample locked entry. -/
theorem c3_locked_amounts_frozen_witness :
    sampleLockedEntry.locked = true ∧
    emptyPayload.locked ≠ some (JVal.jbool false) ∧
    ((finalBalanceEntry sampleLockedEntry emptyPayload).balanceOriginal =
        sampleLockedEntry.balanceOriginal ∧
      (finalBalanceEntry sampleLockedEntry emptyPayload).exchangeRateToBase =
        sampleLockedEntry.exchangeRateToBase) :=
  ⟨rfl, by decide,
    c3_locked_amounts_frozen sampleLockedEntry emptyPayload rfl (by decide)⟩

/-- C4 counterexample: a PUT on a locked entry whose payload contains
balanceOriginal is not rejected with 403; the unknown key is stripped by
the non-strict locked schema and the request succeeds with the entry
unchanged. -/
theorem c4_counterexample :
    putBalanceEntry sampleLockedEntry payloadBalanceOnly =
      PutResult.ok sampleLockedEntry ∧
    putBalanceEntry sampleLockedEntry payloadBalanceOnly ≠ PutResult.forbidden :=
  ⟨rfl, by decide⟩

/-- C4 amended: a PUT on a locked entry either succeeds with
balanceOriginal, exchangeRateToBase and balanceInBase unchanged (any
amount fields in the payload are stripped, not rejected), or fails with
the 403 forbidden response, and the 403 arises exactly when the
notes/locked-only schema rejects the payload. -/
theorem c4_locked_update_strips_unknown_fields (existing : BalanceEntry)
    (p : UpdatePayload) (hlock : existing.locked = true) :
    (∃ e, putBalanceEntry existing p = PutResult.ok e ∧
        e.balanceOriginal = existing.balanceOriginal ∧
        e.exchangeRateToBase = existing.exchangeRateToBase ∧
        e.balanceInBase = existing.balanceInBase) ∨
    (putBalanceEntry existing p = PutResult.forbidden ∧
        ∃ u, parseLockedUpdateBalanceEntry p = Except.error u) := by
  unfold putBalanceEntry
  rw [hlock]
  simp only [if_pos rfl]
  cases hp : parseLockedUpdateBalanceEntry p with
  | error u => exact Or.inr ⟨rfl, u, rfl⟩
  | ok d => exact Or.inl ⟨_, rfl, rfl, rfl, rfl⟩

/-- C4 witness: the amended statement at the sample locked entry and the
payload carrying balanceOriginal. -/
theorem c4_locked_update_strips_unknown_fields_witness :
    sampleLockedEntry.locked = true ∧
    ((∃ e, putBalanceEntry sampleLockedEntry payloadBalanceOnly = PutResult.ok e ∧
        e.balanceOriginal = sampleLockedEntry.balanceOriginal ∧
        e.exchangeRateToBase = sampleLockedEntry.exchangeRateToBase ∧
        e.balanceInBase = sampleLockedEntry.balanceInBase) ∨
      (putBalanceEntry sampleLockedEntry payloadBalanceOnly = PutResult.forbidden ∧
        ∃ u, parseLockedUpdateBalanceEntry payloadBalanceOnly = Except.error u)) :=
  ⟨rfl, c4_locked_update_strips_unknown_fields sampleLockedEntry payloadBalanceOnly rfl⟩

/-- C5: a notes-only PUT on an unlocked entry with a stored rate does not
leave the absent fields unchanged: the exchangeRateToBase preprocess maps
the absent key to null, so the stored rate is nulled and balanceInBase is
reset to balanceOriginal.  The handler evaluated at the failing input. -/
theorem c5_notes_only_put_resets_rate :
    sampleUnlockedEntry.exchangeRateToBase = some 2 ∧
    sampleUnlockedEntry.balanceInBase = some 20 ∧
    putBalanceEntry sampleUnlockedEntry payloadNotesOnly =
      PutResult.ok
        ⟨"e2", "a1", "u1", sampleDateJan2024, 10, "USD", none, some 10, false,
          some "x"⟩ :=
  ⟨rfl, rfl, rfl⟩

/-- Structure of a successful POST: the created row is createdEntry and
the database gains exactly that row. -/
theorem postBalanceEntry_created_eq (accounts : List Account) (db : List BalanceEntry)
    (userId newId : String) (data : CreateData) (e : BalanceEntry)
    (db2 : List BalanceEntry)
    (h : postBalanceEntry accounts db userId newId data = (PostResult.created e, db2)) :
    e = createdEntry userId newId data ∧
    db2 = db ++ [createdEntry userId newId data] := by
  unfold postBalanceEntry at h
  cases hfind : accounts.find? (fun a => a.id = data.accountId) with
  | none => rw [hfind] at h; simp at h
  | some account =>
      rw [hfind] at h
      dsimp only at h
      split_ifs at h
      · simp at h
      · simp at h
      · cases hdb : dbCreateBalanceEntry db (createdEntry userId newId data) with
        | error u => rw [hdb] at h; simp at h
        | ok db3 =>
            rw [hdb] at h
            simp only [Prod.mk.injEq, PostResult.created.injEq] at h
            obtain ⟨he, hdb2⟩ := h
            unfold dbCreateBalanceEntry at hdb
            split_ifs at hdb
            simp only [Except.ok.injEq] at hdb
            subst hdb2
            exact ⟨he.symm, hdb.symm⟩

/-- The created row always satisfies the base-balance invariant. -/
theorem baseInv_createdEntry (userId newId : String) (data : CreateData) :
    baseInv (createdEntry userId newId data) := by
  unfold baseInv createdEntry createBalanceInBase
  dsimp only
  cases data.exchangeRateToBase with
  | none => rfl
  | some r =>
      dsimp only
      by_cases hr : 0 < r
      · rw [if_pos hr, if_pos hr]
      · rw [if_neg hr, if_neg hr]

/-- The unlocked update branch preserves the base-balance invariant. -/
theorem baseInv_updatedEntry (existing : BalanceEntry) (d : ParsedUpdate)
    (hinv : baseInv existing) : baseInv (updatedEntry existing d) := by
  rcases d with ⟨bo, ex, no, lo⟩
  cases bo with
  | none =>
      cases ex with
      | none => exact hinv
      | some v =>
          unfold baseInv updatedEntry
          dsimp only
          cases v with
          | none => rfl
          | some r =>
              dsimp only
              by_cases hr : 0 < r
              · rw [if_pos hr, if_pos hr]; rfl
              · rw [if_neg hr, if_neg hr]; rfl
  | some b =>
      cases ex with
      | none =>
          unfold baseInv updatedEntry
          dsimp only
          cases existing.exchangeRateToBase with
          | none => rfl
          | some r =>
              dsimp only
              by_cases hr : 0 < r
              · rw [if_pos hr, if_pos hr]; rfl
              · rw [if_neg hr, if_neg hr]; rfl
      | some v =>
          unfold baseInv updatedEntry
          dsimp only
          cases v with
          | none => rfl
          | some r =>
              dsimp only
              by_cases hr : 0 < r
              · rw [if_pos hr, if_pos hr]; rfl
              · rw [if_neg hr, if_neg hr]; rfl

/-- C1: after every successful create the stored row satisfies the
base-balance invariant, and every successful update preserves it (the
unlocked branch re-establishes it whenever it recomputes, and the locked
branch never writes the amount fields). -/
theorem c1_base_balance_invariant :
    (∀ accounts db userId newId data e db2,
        postBalanceEntry accounts db userId newId data = (PostResult.created e, db2) →
        baseInv e) ∧
    (∀ existing p, baseInv existing → baseInv (finalBalanceEntry existing p)) := by
  constructor
  · intro accounts db userId newId data e db2 h
    obtain ⟨he, -⟩ := postBalanceEntry_created_eq accounts db userId newId data e db2 h
    subst he
    exact baseInv_createdEntry userId newId data
  · intro existing p hinv
    unfold finalBalanceEntry putBalanceEntry
    cases hlock : existing.locked with
    | true =>
        rw [if_pos rfl]
        cases hp : parseLockedUpdateBalanceEntry p with
        | error u => exact hinv
        | ok d => exact hinv
    | false =>
        rw [if_neg (by simp)]
        cases hp : parseUpdateBalanceEntry p with
        | error u => exact hinv
        | ok d => exact baseInv_updatedEntry existing d hinv

/-- C1 witness: the invariant after a concrete successful create and a
concrete successful update. -/
theorem c1_base_balance_invariant_witness :
    baseInv (createdEntry "u1" "n1" sampleCreateData) ∧
    baseInv (finalBalanceEntry sampleUnlockedEntry payloadNotesOnly) :=
  ⟨c1_base_balance_invariant.1 [sampleAccount] [] "u1" "n1" sampleCreateData
      (createdEntry "u1" "n1" sampleCreateData) [createdEntry "u1" "n1" sampleCreateData] rfl,
    c1_base_balance_invariant.2 sampleUnlockedEntry payloadNotesOnly
      (by norm_num [baseInv, sampleUnlockedEntry])⟩



/-- C10: the stored entryDate of every created balance entry is UTC
midnight on the first day of the UTC month of the submitted date (the
submitted day of month and time are discarded), and no update can change
it (the update schemas carry no entryDate field). -/
theorem c10_entry_date_first_of_month :
    (∀ accounts db userId newId data e db2,
        postBalanceEntry accounts db userId newId data = (PostResult.created e, db2) →
        e.entryDate = ⟨data.entryDate.year, data.entryDate.month, 1, 0⟩) ∧
    (∀ existing p, (finalBalanceEntry existing p).entryDate = existing.entryDate) := by
  constructor
  · intro accounts db userId newId data e db2 h
    obtain ⟨he, -⟩ := postBalanceEntry_created_eq accounts db userId newId data e db2 h
    subst he
    rfl
  · intro existing p
    unfold finalBalanceEntry putBalanceEntry
    cases hlock : existing.locked with
    | true =>
        rw [if_pos rfl]
        cases hp : parseLockedUpdateBalanceEntry p with
        | error u => rfl
        | ok d => rfl
    | false =>
        rw [if_neg (by simp)]
        cases hp : parseUpdateBalanceEntry p with
        | error u => rfl
        | ok d => rfl

/-- C10 witness: a create submitted mid-month stores the first of the
month, and a concrete update leaves the date unchanged. -/
theorem c10_entry_date_first_of_month_witness :
    (createdEntry "u1" "n1" sampleCreateData).entryDate = ⟨2024, 0, 1, 0⟩ ∧
    (finalBalanceEntry sampleUnlockedEntry payloadNotesOnly).entryDate =
      sampleUnlockedEntry.entryDate :=
  ⟨c10_entry_date_first_of_month.1 [sampleAccount] [] "u1" "n1" sampleCreateData
      (createdEntry "u1" "n1" sampleCreateData) [createdEntry "u1" "n1" sampleCreateData] rfl,
    c10_entry_date_first_of_month.2 sampleUnlockedEntry payloadNotesOnly⟩

/-- Two first-of-month dates of the same UTC month are equal. -/
theorem eq_of_normalized_sameMonth {d1 d2 : DateU}
    (h1 : d1.day = 1 ∧ d1.msOfDay = 0) (h2 : d2.day = 1 ∧ d2.msOfDay = 0)
    (hs : sameUTCMonth d1 d2) : d1 = d2 := by
  rcases d1 with ⟨y1, m1, a1, s1⟩
  rcases d2 with ⟨y2, m2, a2, s2⟩
  obtain ⟨hy, hm⟩ := hs
  obtain ⟨hd1, hs1⟩ := h1
  obtain ⟨hd2, hs2⟩ := h2
  simp only at hy hm hd1 hs1 hd2 hs2
  subst hy; subst hm; subst hd1; subst hs1; subst hd2; subst hs2
  rfl

/-- C6: assuming the account lookup, ownership and currency checks pass,
a create whose entryDate falls in the same UTC month as an existing entry
of the same account fails with the 409 conflict and writes nothing; and
every POST outcome preserves the at-most-one-entry-per-account-month
database invariant. -/
theorem c6_month_uniqueness (accounts : List Account) (db : List BalanceEntry)
    (userId newId : String) (data : CreateData) (acct : Account)
    (hfind : accounts.find? (fun a => a.id = data.accountId) = some acct)
    (hown : acct.userId = userId)
    (hcur : toUpperCase acct.currency = toUpperCase data.currency)
    (hinv : dbBalanceInv db) :
    (∀ e0 ∈ db, e0.accountId = data.accountId →
        sameUTCMonth e0.entryDate data.entryDate →
        postBalanceEntry accounts db userId newId data = (PostResult.conflict, db)) ∧
    dbBalanceInv (postBalanceEntry accounts db userId newId data).2 := by
  have hnorm : ∀ e0 ∈ db, entryDateNormalized e0 := hinv.1
  constructor
  · intro e0 he0 hacc hsame
    unfold postBalanceEntry
    rw [hfind]
    dsimp only
    rw [if_neg (by simp [hown]), if_neg (by simp [hcur])]
    have hdate : e0.entryDate = (createdEntry userId newId data).entryDate := by
      refine eq_of_normalized_sameMonth (hnorm e0 he0) ⟨rfl, rfl⟩ ?_
      exact hsame
    have hany : (db.any fun e1 =>
        decide (e1.accountId = (createdEntry userId newId data).accountId) &&
          decide (e1.entryDate = (createdEntry userId newId data).entryDate)) = true :=
      List.any_eq_true.mpr ⟨e0, he0, by
        simp only [Bool.and_eq_true, decide_eq_true_eq]
        exact ⟨hacc, hdate⟩⟩
    unfold dbCreateBalanceEntry
    rw [if_pos hany]
  · unfold postBalanceEntry
    cases hfind2 : accounts.find? (fun a => a.id = data.accountId) with
    | none => exact hinv
    | some account =>
        dsimp only
        split_ifs
        · exact hinv
        · exact hinv
        · cases hdb : dbCreateBalanceEntry db (createdEntry userId newId data) with
          | error u => exact hinv
          | ok db3 =>
              unfold dbCreateBalanceEntry at hdb
              split_ifs at hdb with hany
              simp only [Except.ok.injEq] at hdb
              subst hdb
              have hnotany := List.any_eq_false.mp (Bool.not_eq_true _ ▸ hany)
              constructor
              · intro e he
                rcases List.mem_append.mp he with h1 | h1
                · exact hnorm e h1
                · rw [List.mem_singleton.mp h1]; exact ⟨rfl, rfl⟩
              · refine List.pairwise_append.mpr ⟨hinv.2, List.pairwise_singleton _ _, ?_⟩
                intro e1 h1 e2 h2
                rw [List.mem_singleton.mp h2]
                rintro ⟨hacc, hsame⟩
                have hdate : e1.entryDate = (createdEntry userId newId data).entryDate :=
                  eq_of_normalized_sameMonth (hnorm e1 h1) ⟨rfl, rfl⟩ hsame
                refine hnotany e1 h1 ?_
                simp only [Bool.and_eq_true, decide_eq_true_eq]
                exact ⟨hacc, hdate⟩

/-- C6 witness: a second create for the same account in the same UTC
month conflicts and the database keeps its invariant. -/
theorem c6_month_uniqueness_witness :
    postBalanceEntry [sampleAccount] [createdEntry "u1" "n1" sampleCreateData]
        "u1" "n2" sampleCreateData2 =
      (PostResult.conflict, [createdEntry "u1" "n1" sampleCreateData]) ∧
    dbBalanceInv (postBalanceEntry [sampleAccount]
        [createdEntry "u1" "n1" sampleCreateData] "u1" "n2" sampleCreateData2).2 := by
  have hinv : dbBalanceInv [createdEntry "u1" "n1" sampleCreateData] := by
    refine ⟨?_, List.pairwise_singleton _ _⟩
    intro e he
    rw [List.mem_singleton.mp he]
    exact ⟨rfl, rfl⟩
  have h := c6_month_uniqueness [sampleAccount]
    [createdEntry "u1" "n1" sampleCreateData] "u1" "n2" sampleCreateData2
    sampleAccount rfl rfl rfl hinv
  exact ⟨h.1 (createdEntry "u1" "n1" sampleCreateData) (List.mem_singleton_self _)
      rfl ⟨rfl, rfl⟩, h.2⟩

/-- C8 counterexample: an infinite rate is not caught by the isNaN guard;
with finite principal 1 and a one-year span the result is positive
infinity, not the principal. -/
theorem c8_counterexample :
    calculateMaturityValue (JSNum.fin 1) JSNum.inf 0 31557600000 = JSNum.inf ∧
    JSNum.inf ≠ JSNum.fin 1 := by
  constructor
  · unfold calculateMaturityValue
    rw [if_neg (by simp), if_neg (by simp)]
    unfold msPerYear jsDivPos jsMulFin jsAddFin jsMul
    norm_num
  · simp

/-- C8 amended: for finite principal and rate and a maturity strictly
after the start, calculateMaturityValue returns
principal * (1 + (rate/100) * (milliseconds elapsed / milliseconds in
365.25 days)); it returns the principal unchanged when the maturity is
not strictly after the start or when principal or rate is NaN (the
isNaN guard does not cover infinite inputs). -/
theorem c8_maturity_value :
    (∀ (P R : ℚ) (S M : Int), S < M →
        calculateMaturityValue (JSNum.fin P) (JSNum.fin R) S M =
          JSNum.fin (P * (1 + R / 100 * (((M - S : Int) : ℚ) / msPerYear)))) ∧
    (∀ (P R : JSNum) (S M : Int), M ≤ S → calculateMaturityValue P R S M = P) ∧
    (∀ (R : JSNum) (S M : Int), calculateMaturityValue JSNum.nan R S M = JSNum.nan) ∧
    (∀ (P : JSNum) (S M : Int), calculateMaturityValue P JSNum.nan S M = P) := by
  refine ⟨?_, ?_, ?_, ?_⟩
  · intro P R S M hlt
    unfold calculateMaturityValue
    rw [if_neg (by simp; omega), if_neg (by omega)]
    rfl
  · intro P R S M hle
    unfold calculateMaturityValue
    rw [if_pos (by simp [hle])]
  · intro R S M
    unfold calculateMaturityValue
    rw [if_pos (by simp)]
  · intro P S M
    unfold calculateMaturityValue
    rw [if_pos (by simp)]

/-- C8 witness: the worked example of the spec, principal 100000 at 6
percent over exactly 365.25 days, evaluates to 106000. -/
theorem c8_maturity_value_witness :
    calculateMaturityValue (JSNum.fin 100000) (JSNum.fin 6) 0 31557600000 =
      JSNum.fin (100000 * (1 + 6 / 100 * (((31557600000 - 0 : Int) : ℚ) / msPerYear))) ∧
    (100000 * (1 + 6 / 100 * (((31557600000 - 0 : Int) : ℚ) / msPerYear)) : ℚ) = 106000 :=
  ⟨c8_maturity_value.1 100000 6 0 31557600000 (by norm_num),
    by norm_num [msPerYear]⟩


/-- Demoting every current address of a user (POST path, no exclusion)
leaves the user with zero current addresses. -/
theorem currentCount_demoteOthers_none (state : List Address) (u : String) :
    currentCount (demoteOthers state u none) u = 0 := by
  unfold currentCount demoteOthers
  rw [List.filter_map, List.length_map, List.length_eq_zero, List.filter_eq_nil_iff]
  intro a ha
  simp only [Function.comp_apply]
  unfold demoteStep
  by_cases h1 : (a.userId = u && a.isCurrent) = true
  · rw [if_pos (by simp_all)]
    simp
  · rw [if_neg (by simp_all)]
    simp_all

/-- C9 counterexample: with two addresses of the user both marked current
(a state the spec itself admits a crash can produce), a PUT that sets
isCurrent true on the already-current address completes but skips the
demotion, leaving two current addresses. -/
theorem c9_counterexample :
    currentCount addrTwoCurrent "u" = 2 ∧
    putAddress addrTwoCurrent "u" "a" (some true) = some addrTwoCurrent ∧
    currentCount addrTwoCurrent "u" ≠ 1 :=
  ⟨rfl, rfl, by decide⟩

/-- Among addresses with pairwise-distinct ids, exactly one matches the
id of a member, so the filter by that id and its owner has length one. -/
theorem length_filter_id_eq_one (state : List Address) (id u : String)
    (target : Address) (hnd : (state.map Address.id).Nodup) (hmem : target ∈ state)
    (hid : target.id = id) (hu : target.userId = u) :
    (state.filter (fun a => decide (a.id = id) && decide (a.userId = u))).length = 1 := by
  induction state with
  | nil => cases hmem
  | cons x rest ih =>
      rw [List.map_cons, List.nodup_cons] at hnd
      obtain ⟨hx, hnd2⟩ := hnd
      rcases List.mem_cons.mp hmem with hxe | hmem2
      · subst hxe
        rw [List.filter_cons_of_pos (by simp [hid, hu])]
        have hrest : (rest.filter
            (fun a => decide (a.id = id) && decide (a.userId = u))).length = 0 := by
          rw [List.length_eq_zero, List.filter_eq_nil_iff]
          intro a ha
          simp only [Bool.and_eq_true, decide_eq_true_eq, not_and]
          intro haid _
          exact hx (by rw [← hid] at haid; exact haid ▸ List.mem_map_of_mem Address.id ha)
        simp [hrest]
      · have hxid : ¬(x.id = id) := by
          intro hxid
          exact hx (by rw [hxid, ← hid]; exact List.mem_map_of_mem Address.id hmem2)
        rw [List.filter_cons_of_neg (by simp [hxid])]
        exact ih hnd2 hmem2

/-- Pointwise effect on one row of demote-then-set-current: the row ends
current exactly when it is the target row. -/
theorem setCurrent_demote_pointwise (a : Address) (id u : String) :
    (decide ((setCurrentStep u id (some true) (demoteStep u (some id) a)).userId = u) &&
      (setCurrentStep u id (some true) (demoteStep u (some id) a)).isCurrent) =
    (decide (a.id = id) && decide (a.userId = u)) := by
  unfold demoteStep setCurrentStep
  by_cases hc1 : (a.userId = u && a.isCurrent &&
      (match some id with | some i => decide (a.id ≠ i) | none => true)) = true
  · rw [if_pos hc1]
    have h3 : ¬(a.id = id) := by
      simp only [Bool.and_eq_true, decide_eq_true_eq] at hc1
      exact hc1.2
    rw [if_neg (by simp [h3])]
    simp [h3]
  · rw [if_neg hc1]
    by_cases hc2 : (a.id = id && a.userId = u) = true
    · rw [if_pos hc2]
      simp only [Bool.and_eq_true, decide_eq_true_eq] at hc2
      simp [hc2.1, hc2.2]
    · rw [if_neg hc2]
      simp only [Bool.and_eq_true, decide_eq_true_eq, not_and] at hc1 hc2
      by_cases h1 : a.userId = u
      · have h3 : ¬(a.id = id) := fun hc => hc2 hc h1
        have h2 : ¬(a.isCurrent = true) := fun hc => (hc1 ⟨h1, hc⟩) (by simpa using h3)
        simp [h1, h2, h3]
      · simp [h1]

/-- C9 amended: a POST that creates a current address always ends with
exactly one current address of the user, and a PUT that sets isCurrent
true on an address that was not already current (ids being unique) also
ends with exactly one; only a PUT targeting an already-current address
skips the demotion (the counterexample). -/
theorem c9_single_current_after_set_current :
    (∀ (state : List Address) (u newId : String),
        currentCount (postAddress state u newId true) u = 1) ∧
    (∀ (state : List Address) (u id : String) (target : Address) (res : List Address),
        (state.map Address.id).Nodup →
        state.find? (fun a => a.id = id && a.userId = u) = some target →
        target.isCurrent = false →
        putAddress state u id (some true) = some res →
        currentCount res u = 1) := by
  constructor
  · intro state u newId
    unfold postAddress
    rw [if_pos rfl]
    unfold currentCount
    rw [List.filter_append, List.length_append]
    have h0 := currentCount_demoteOthers_none state u
    unfold currentCount at h0
    rw [h0]
    simp
  · intro state u id target res hnd hfind htc hput
    unfold putAddress at hput
    rw [hfind] at hput
    dsimp only at hput
    rw [if_neg (by simp [htc])] at hput
    unfold updateAddressRow at hput
    split_ifs at hput with hany
    · simp only [Option.some.injEq] at hput
      subst hput
      unfold currentCount demoteOthers
      rw [List.map_map, List.filter_map, List.length_map]
      rw [List.filter_congr
        (fun a _ => by
          simpa only [Function.comp_apply] using setCurrent_demote_pointwise a id u)]
      exact length_filter_id_eq_one state id u target hnd
        (List.mem_of_find?_eq_some hfind)
        (by have := List.find?_some hfind; simp only [Bool.and_eq_true,
              decide_eq_true_eq] at this; exact this.1)
        (by have := List.find?_some hfind; simp only [Bool.and_eq_true,
              decide_eq_true_eq] at this; exact this.2)

/-- C9 witness: promoting the non-current address of a two-address state
ends with exactly one current address. -/
theorem c9_single_current_after_set_current_witness :
    currentCount (postAddress addrOneCurrent "u" "c" true) "u" = 1 ∧
    currentCount [⟨"a", "u", false⟩, ⟨"b", "u", true⟩] "u" = 1 :=
  ⟨c9_single_current_after_set_current.1 addrOneCurrent "u" "c",
    c9_single_current_after_set_current.2 addrOneCurrent "u" "b" ⟨"b", "u", false⟩
      [⟨"a", "u", false⟩, ⟨"b", "u", true⟩] (by decide) rfl rfl rfl⟩

/-- Arithmetic characterization of the chronological strict order. -/
theorem dateLtB_iff (a b : DateU) : dateLtB a b = true ↔
    (a.year < b.year ∨ (a.year = b.year ∧ (a.month < b.month ∨ (a.month = b.month ∧
      (a.day < b.day ∨ (a.day = b.day ∧ a.msOfDay < b.msOfDay)))))) := by
  unfold dateLtB
  split_ifs with h1 h2 h3 <;> simp_all

/-- The strict order is transitive. -/
theorem dateLtB_trans {a b c : DateU} (h1 : dateLtB a b = true)
    (h2 : dateLtB b c = true) : dateLtB a c = true := by
  rw [dateLtB_iff] at h1 h2 ⊢
  omega

/-- Non-strict chronological comparison fails both ways only never:
if neither a before b nor b before c, then a is not before c. -/
theorem dateLtB_false_trans {a b c : DateU} (h1 : dateLtB a b = false)
    (h2 : dateLtB b c = false) : dateLtB a c = false := by
  rw [Bool.eq_false_iff, ne_eq, dateLtB_iff] at h1 h2 ⊢
  omega

/-- Strict order or equality or reverse strict order. -/
theorem dateLtB_trichotomy (a b : DateU) :
    dateLtB a b = true ∨ a = b ∨ dateLtB b a = true := by
  rcases a with ⟨y1, m1, d1, s1⟩
  rcases b with ⟨y2, m2, d2, s2⟩
  simp only [dateLtB_iff, DateU.mk.injEq]
  omega

/-- Totality of the non-strict order. -/
theorem dateLeB_total (a b : DateU) (h : dateLeB a b = false) : dateLeB b a = true := by
  rcases dateLtB_trichotomy a b with h1 | h1 | h1
  · exfalso; unfold dateLeB at h; rw [h1] at h; simp at h
  · exfalso; unfold dateLeB at h; rw [h1] at h; simp at h
  · unfold dateLeB; rw [h1]; rfl

/-- A non-strict comparison together with distinctness is strict. -/
theorem dateLtB_of_leB_ne {a b : DateU} (h : dateLeB a b = true) (hne : a ≠ b) :
    dateLtB a b = true := by
  unfold dateLeB at h
  simp only [Bool.or_eq_true, decide_eq_true_eq] at h
  rcases h with h | h
  · exact h
  · exact absurd h hne

/-- The non-strict order is transitive. -/
theorem dateLeB_trans {a b c : DateU} (h1 : dateLeB a b = true)
    (h2 : dateLeB b c = true) : dateLeB a c = true := by
  unfold dateLeB at h1 h2 ⊢
  simp only [Bool.or_eq_true, decide_eq_true_eq] at h1 h2 ⊢
  rcases h1 with h1 | h1 <;> rcases h2 with h2 | h2
  · exact Or.inl (dateLtB_trans h1 h2)
  · subst h2; exact Or.inl h1
  · subst h1; exact Or.inl h2
  · subst h1; exact Or.inr h2

/-- The strict order is irreflexive. -/
theorem dateLtB_irrefl (a : DateU) : dateLtB a a = false := by
  rw [Bool.eq_false_iff, ne_eq, dateLtB_iff]
  omega

/-- The take-latest fold keeps a maximal element seen so far. -/
theorem foldl_latest_spec (rest : List (DateU × Option ℚ)) :
    ∀ acc : DateU × Option ℚ,
      (rest.foldl (fun best x => if dateLtB best.1 x.1 then x else best) acc = acc ∨
        rest.foldl (fun best x => if dateLtB best.1 x.1 then x else best) acc ∈ rest) ∧
      dateLtB (rest.foldl (fun best x => if dateLtB best.1 x.1 then x else best) acc).1
        acc.1 = false ∧
      ∀ x ∈ rest,
        dateLtB (rest.foldl (fun best x => if dateLtB best.1 x.1 then x else best) acc).1
          x.1 = false := by
  induction rest with
  | nil =>
      intro acc
      exact ⟨Or.inl rfl, dateLtB_irrefl acc.1, fun x hx => absurd hx (List.not_mem_nil x)⟩
  | cons x rest ih =>
      intro acc
      simp only [List.foldl_cons]
      by_cases hc : dateLtB acc.1 x.1 = true
      · rw [if_pos hc]
        obtain ⟨hmem, hacc, hall⟩ := ih x
        refine ⟨?_, ?_, ?_⟩
        · rcases hmem with hm | hm
          · exact Or.inr (by rw [hm]; exact List.mem_cons_self x rest)
          · exact Or.inr (List.mem_cons_of_mem x hm)
        · rw [Bool.eq_false_iff, ne_eq]
          intro hra
          exact (Bool.eq_false_iff.mp hacc) (dateLtB_trans hra hc)
        · intro y hy
          rcases List.mem_cons.mp hy with hyx | hyr
          · rw [hyx]; exact hacc
          · exact hall y hyr
      · rw [if_neg hc]
        obtain ⟨hmem, hacc, hall⟩ := ih acc
        refine ⟨?_, ?_, ?_⟩
        · rcases hmem with hm | hm
          · exact Or.inl hm
          · exact Or.inr (List.mem_cons_of_mem x hm)
        · exact hacc
        · intro y hy
          rcases List.mem_cons.mp hy with hyx | hyr
          · rw [hyx]
            exact dateLtB_false_trans hacc (Bool.eq_false_iff.mpr hc)
          · exact hall y hyr

/-- latestEntry returns a member whose entry date no other entry strictly
exceeds: the most recent entry (maximum entryDate). -/
theorem latestEntry_spec (l : List (DateU × Option ℚ)) (e : DateU × Option ℚ)
    (h : latestEntry l = some e) :
    e ∈ l ∧ ∀ x ∈ l, dateLtB e.1 x.1 = false := by
  cases l with
  | nil => cases h
  | cons e0 rest =>
      unfold latestEntry at h
      simp only [Option.some.injEq] at h
      obtain ⟨hmem, hacc, hall⟩ := foldl_latest_spec rest e0
      rw [h] at hmem hacc hall
      constructor
      · rcases hmem with hm | hm
        · rw [hm]; exact List.mem_cons_self e0 rest
        · exact List.mem_cons_of_mem e0 hm
      · intro x hx
        rcases List.mem_cons.mp hx with hx0 | hxr
        · rw [hx0]; exact hacc
        · exact hall x hxr

/-- One summary-loop step adds exactly the asset contribution of the
account to totalAssets. -/
theorem summaryStep_totalAssets (st : SummaryState) (a : SummaryAccount) :
    (summaryStep st a).totalAssets = st.totalAssets + acctAssetContrib a := by
  unfold summaryStep acctAssetContrib acctLatestBase
  cases hl : latestEntry a.entries with
  | none => simp
  | some e =>
      rcases e with ⟨d, bal⟩
      cases bal with
      | none => simp
      | some v =>
          cases hct : a.categoryType with
          | none => simp
          | some t => cases t <;> simp

/-- One summary-loop step adds exactly the liability contribution of the
account to totalLiabilities. -/
theorem summaryStep_totalLiabilities (st : SummaryState) (a : SummaryAccount) :
    (summaryStep st a).totalLiabilities = st.totalLiabilities + acctLiabContrib a := by
  unfold summaryStep acctLiabContrib acctLatestBase
  cases hl : latestEntry a.entries with
  | none => simp
  | some e =>
      rcases e with ⟨d, bal⟩
      cases bal with
      | none => simp
      | some v =>
          cases hct : a.categoryType with
          | none => simp
          | some t => cases t <;> simp

/-- One summary-loop step adds exactly the count contribution of the
account to accountsUsedInCalculation. -/
theorem summaryStep_count (st : SummaryState) (a : SummaryAccount) :
    (summaryStep st a).accountsUsedInCalculation =
      st.accountsUsedInCalculation + acctCountContrib a := by
  unfold summaryStep acctCountContrib acctLatestBase
  cases hl : latestEntry a.entries with
  | none => simp
  | some e =>
      rcases e with ⟨d, bal⟩
      cases bal with
      | none => simp
      | some v =>
          cases hct : a.categoryType with
          | none => simp
          | some t => cases t <;> simp

/-- The summary loop accumulates the per-account contributions. -/
theorem summary_foldl_eq (accounts : List SummaryAccount) :
    ∀ st : SummaryState,
      ((accounts.foldl summaryStep st).totalAssets =
        st.totalAssets + (accounts.map acctAssetContrib).sum) ∧
      ((accounts.foldl summaryStep st).totalLiabilities =
        st.totalLiabilities + (accounts.map acctLiabContrib).sum) ∧
      ((accounts.foldl summaryStep st).accountsUsedInCalculation =
        st.accountsUsedInCalculation + (accounts.map acctCountContrib).sum) := by
  induction accounts with
  | nil => intro st; simp
  | cons a rest ih =>
      intro st
      simp only [List.foldl_cons, List.map_cons, List.sum_cons]
      obtain ⟨h1, h2, h3⟩ := ih (summaryStep st a)
      refine ⟨?_, ?_, ?_⟩
      · rw [h1, summaryStep_totalAssets]; ring
      · rw [h2, summaryStep_totalLiabilities]; ring
      · rw [h3, summaryStep_count]; omega

/-- C7 counterexample: an account with a non-null latest balance but no
category contributes nothing to either total, yet it is included in
accountsWithBalancesCounted (the claim says it is excluded). -/
theorem c7_counterexample :
    (netWorthSummary [summaryAcctNoCat]).accountsWithBalancesCounted = 1 ∧
    summaryAcctNoCat.categoryType = none ∧
    (netWorthSummary [summaryAcctNoCat]).totalAssets = 0 ∧
    (netWorthSummary [summaryAcctNoCat]).totalLiabilities = 0 :=
  ⟨rfl, rfl, rfl, rfl⟩

/-- C7 amended: the summary sums, per account, only the latest entry
(maximum entryDate): totals are the sums of per-account latest-entry
contributions by category type, netWorth is their difference,
accountsConsidered counts all accounts, and accountsWithBalancesCounted
counts the accounts with a non-null latest balance — including those
without a category, which contribute nothing to the totals; accounts with
no entries or no category contribute nothing to the sums. -/
theorem c7_summary_latest_only (accounts : List SummaryAccount) :
    (netWorthSummary accounts).totalAssets = (accounts.map acctAssetContrib).sum ∧
    (netWorthSummary accounts).totalLiabilities = (accounts.map acctLiabContrib).sum ∧
    (netWorthSummary accounts).netWorth =
      (accounts.map acctAssetContrib).sum - (accounts.map acctLiabContrib).sum ∧
    (netWorthSummary accounts).accountsConsidered = accounts.length ∧
    (netWorthSummary accounts).accountsWithBalancesCounted =
      (accounts.map acctCountContrib).sum ∧
    (∀ a ∈ accounts, ∀ e, latestEntry a.entries = some e →
        e ∈ a.entries ∧ ∀ x ∈ a.entries, dateLtB e.1 x.1 = false) ∧
    (∀ a ∈ accounts, a.categoryType = none →
        acctAssetContrib a = 0 ∧ acctLiabContrib a = 0) ∧
    (∀ a ∈ accounts, a.entries = [] →
        acctAssetContrib a = 0 ∧ acctLiabContrib a = 0 ∧ acctCountContrib a = 0) := by
  have h := summary_foldl_eq accounts ⟨0, 0, none, 0⟩
  refine ⟨by simpa using h.1, by simpa using h.2.1, ?_, rfl, by simpa using h.2.2, ?_, ?_, ?_⟩
  · show (accounts.foldl summaryStep ⟨0, 0, none, 0⟩).totalAssets -
        (accounts.foldl summaryStep ⟨0, 0, none, 0⟩).totalLiabilities = _
    rw [h.1, h.2.1]
    ring
  · intro a ha e he
    exact latestEntry_spec a.entries e he
  · intro a ha hnone
    unfold acctAssetContrib acctLiabContrib
    rw [if_neg (by simp [hnone]), if_neg (by simp [hnone])]
    exact ⟨rfl, rfl⟩
  · intro a ha hemp
    unfold acctAssetContrib acctLiabContrib acctCountContrib acctLatestBase
    rw [hemp]
    simp [latestEntry]

/-- C7 witness: a concrete two-account state, one ASSET account with two
historical entries and one category-less account. -/
theorem c7_summary_latest_only_witness :
    (netWorthSummary [summaryAcctAsset, summaryAcctNoCat]).accountsConsidered = 2 ∧
    (acctAssetContrib summaryAcctNoCat = 0 ∧ acctLiabContrib summaryAcctNoCat = 0) :=
  ⟨(c7_summary_latest_only [summaryAcctAsset, summaryAcctNoCat]).2.2.2.1,
    (c7_summary_latest_only [summaryAcctAsset, summaryAcctNoCat]).2.2.2.2.2.2.1
      summaryAcctNoCat (by simp) rfl⟩

/-- addBal never changes the bucket key. -/
theorem addBal_key (b : Bucket) (e : TrendEntry) : (addBal b e).key = b.key := by
  unfold addBal
  cases hct : e.categoryType with
  | none => rfl
  | some t => cases t <;> rfl

/-- Effect of one aggregation step on the bucket of month k. -/
theorem findBucket_addToBuckets (acc : List Bucket) (e : TrendEntry) (k : Int × Nat) :
    findBucket (addToBuckets acc e) k =
      if keepEntry e = true ∧ monthKey e = k then
        some (addBal ((findBucket acc k).getD ⟨k, 0, 0⟩) e)
      else findBucket acc k := by
  unfold addToBuckets
  by_cases hk : keepEntry e = true
  · rw [if_pos hk]
    by_cases hany : (acc.any (fun b => decide (b.key = monthKey e))) = true
    · rw [if_pos hany]
      unfold findBucket
      rw [List.find?_map]
      have hcong : ((fun b : Bucket => decide (b.key = k)) ∘
          (fun b => if b.key = monthKey e then addBal b e else b)) =
          fun b : Bucket => decide (b.key = k) := by
        funext b
        simp only [Function.comp_apply]
        by_cases hb : b.key = monthKey e
        · rw [if_pos hb, addBal_key]
        · rw [if_neg hb]
      rw [hcong]
      by_cases hmk : monthKey e = k
      · subst hmk
        rw [if_pos ⟨hk, rfl⟩]
        have hsome : (acc.find? fun b : Bucket => decide (b.key = monthKey e)).isSome = true := by
          rw [List.find?_isSome]
          obtain ⟨b0, hb0, hp⟩ := List.any_eq_true.mp hany
          exact ⟨b0, hb0, hp⟩
        obtain ⟨b0, hb0⟩ := Option.isSome_iff_exists.mp hsome
        rw [hb0]
        have hkey : b0.key = monthKey e := by
          have := List.find?_some hb0
          simpa using this
        simp only [Option.map_some', Option.getD_some]
        rw [if_pos hkey]
      · rw [if_neg (fun hc => hmk hc.2)]
        cases hf : acc.find? (fun b : Bucket => decide (b.key = k)) with
        | none => rfl
        | some b1 =>
            have hkey : b1.key = k := by
              have := List.find?_some hf
              simpa using this
            simp only [Option.map_some']
            rw [if_neg (by rw [hkey]; exact fun hc => hmk hc.symm)]
    · rw [if_neg hany]
      unfold findBucket
      rw [List.find?_append]
      by_cases hmk : monthKey e = k
      · subst hmk
        rw [if_pos ⟨hk, rfl⟩]
        have hnone : acc.find? (fun b : Bucket => decide (b.key = monthKey e)) = none := by
          rw [List.find?_eq_none]
          intro b hb hp
          exact hany (List.any_eq_true.mpr ⟨b, hb, hp⟩)
        rw [hnone]
        simp only [Option.none_or, Option.getD_none]
        rw [List.find?_cons_of_pos _ (by rw [addBal_key]; simp)]
      · rw [if_neg (fun hc => hmk hc.2)]
        have hone : List.find? (fun b : Bucket => decide (b.key = k))
            [addBal ⟨monthKey e, 0, 0⟩ e] = none := by
          rw [List.find?_eq_none]
          intro b hb
          rw [List.mem_singleton.mp hb]
          rw [addBal_key]
          simp only [decide_eq_true_eq]
          exact fun hc => hmk hc
        rw [hone]
        cases hf : acc.find? (fun b : Bucket => decide (b.key = k)) <;> rfl
  · rw [if_neg hk, if_neg (fun hc => hk hc.1)]

/-- Asset sum over a cons. -/
theorem assetSumAt_cons (e : TrendEntry) (rest : List TrendEntry) (k : Int × Nat) :
    assetSumAt (e :: rest) k =
      (if keepEntry e = true ∧ monthKey e = k ∧ e.categoryType = some AssetType.ASSET
        then e.balanceInBase.getD 0 else 0) + assetSumAt rest k := by
  unfold assetSumAt
  by_cases h : keepEntry e = true ∧ monthKey e = k ∧ e.categoryType = some AssetType.ASSET
  · rw [List.filter_cons_of_pos (by simp [h.1, h.2.1, h.2.2]), List.map_cons,
      List.sum_cons, if_pos h]
  · rw [List.filter_cons_of_neg (by simpa using fun h1 h2 h3 => h ⟨h1, h2, h3⟩),
      if_neg h, zero_add]

/-- Liability sum over a cons. -/
theorem liabSumAt_cons (e : TrendEntry) (rest : List TrendEntry) (k : Int × Nat) :
    liabSumAt (e :: rest) k =
      (if keepEntry e = true ∧ monthKey e = k ∧ e.categoryType = some AssetType.LIABILITY
        then e.balanceInBase.getD 0 else 0) + liabSumAt rest k := by
  unfold liabSumAt
  by_cases h : keepEntry e = true ∧ monthKey e = k ∧ e.categoryType = some AssetType.LIABILITY
  · rw [List.filter_cons_of_pos (by simp [h.1, h.2.1, h.2.2]), List.map_cons,
      List.sum_cons, if_pos h]
  · rw [List.filter_cons_of_neg (by simpa using fun h1 h2 h3 => h ⟨h1, h2, h3⟩),
      if_neg h, zero_add]

/-- Kept-month membership over a cons. -/
theorem keptMonthMem_cons (e : TrendEntry) (rest : List TrendEntry) (k : Int × Nat) :
    keptMonthMem (e :: rest) k =
      ((keepEntry e && decide (monthKey e = k)) || keptMonthMem rest k) := by
  unfold keptMonthMem
  rw [List.any_cons]

/-- The aggregation fold computes, for every month, the filtered sums of
assets and liabilities over the processed entries. -/
theorem foldl_addToBuckets_spec (entries : List TrendEntry) :
    ∀ (acc : List Bucket) (k : Int × Nat),
      findBucket (entries.foldl addToBuckets acc) k =
        (match findBucket acc k with
         | some b => some ⟨b.key, b.totalAssets + assetSumAt entries k,
             b.totalLiabilities + liabSumAt entries k⟩
         | none =>
             if keptMonthMem entries k = true then
               some ⟨k, assetSumAt entries k, liabSumAt entries k⟩
             else none) := by
  induction entries with
  | nil =>
      intro acc k
      cases hf : findBucket acc k with
      | none => simp [keptMonthMem, hf]
      | some b => simp [assetSumAt, liabSumAt, hf]
  | cons e rest ih =>
      intro acc k
      rw [List.foldl_cons, ih (addToBuckets acc e) k, findBucket_addToBuckets,
        assetSumAt_cons, liabSumAt_cons, keptMonthMem_cons]
      by_cases hke : keepEntry e = true ∧ monthKey e = k
      · obtain ⟨hk1, hk2⟩ := hke
        have hkm : (keepEntry e && decide (monthKey e = k)) = true := by simp [hk1, hk2]
        rw [if_pos ⟨hk1, hk2⟩, hkm, Bool.true_or]
        cases hct : e.categoryType with
        | none =>
            exfalso
            unfold keepEntry at hk1
            rw [hct] at hk1
            simp at hk1
        | some t =>
            cases t with
            | ASSET =>
                have hA2 : (if keepEntry e = true ∧ monthKey e = k ∧
                    (some AssetType.ASSET : Option AssetType) = some AssetType.ASSET
                    then e.balanceInBase.getD 0 else 0) = e.balanceInBase.getD 0 :=
                  if_pos ⟨hk1, hk2, rfl⟩
                have hL2 : (if keepEntry e = true ∧ monthKey e = k ∧
                    (some AssetType.ASSET : Option AssetType) = some AssetType.LIABILITY
                    then e.balanceInBase.getD 0 else 0) = 0 :=
                  if_neg (by simp)
                rw [hA2, hL2]
                cases hf : findBucket acc k with
                | some b =>
                    unfold addBal
                    rw [hct]
                    dsimp only
                    simp [Bucket.mk.injEq, add_assoc]
                | none =>
                    unfold addBal
                    rw [hct]
                    dsimp only
                    simp [Bucket.mk.injEq, add_assoc]
            | LIABILITY =>
                have hA2 : (if keepEntry e = true ∧ monthKey e = k ∧
                    (some AssetType.LIABILITY : Option AssetType) = some AssetType.ASSET
                    then e.balanceInBase.getD 0 else 0) = 0 :=
                  if_neg (by simp)
                have hL2 : (if keepEntry e = true ∧ monthKey e = k ∧
                    (some AssetType.LIABILITY : Option AssetType) = some AssetType.LIABILITY
                    then e.balanceInBase.getD 0 else 0) = e.balanceInBase.getD 0 :=
                  if_pos ⟨hk1, hk2, rfl⟩
                rw [hA2, hL2]
                cases hf : findBucket acc k with
                | some b =>
                    unfold addBal
                    rw [hct]
                    dsimp only
                    simp [Bucket.mk.injEq, add_assoc]
                | none =>
                    unfold addBal
                    rw [hct]
                    dsimp only
                    simp [Bucket.mk.injEq, add_assoc]
      · have hA2 : (if keepEntry e = true ∧ monthKey e = k ∧
            e.categoryType = some AssetType.ASSET
            then e.balanceInBase.getD 0 else 0) = 0 :=
          if_neg (fun hc => hke ⟨hc.1, hc.2.1⟩)
        have hL2 : (if keepEntry e = true ∧ monthKey e = k ∧
            e.categoryType = some AssetType.LIABILITY
            then e.balanceInBase.getD 0 else 0) = 0 :=
          if_neg (fun hc => hke ⟨hc.1, hc.2.1⟩)
        have hkm : (keepEntry e && decide (monthKey e = k)) = false := by
          rw [Bool.and_eq_false_iff]
          by_cases h1 : keepEntry e = true
          · right
            simp only [decide_eq_false_iff_not]
            exact fun hc => hke ⟨h1, hc⟩
          · left
            exact Bool.eq_false_iff.mpr h1
        rw [if_neg hke, hA2, hL2, hkm, Bool.false_or, zero_add, zero_add]

/-- One aggregation step keeps bucket keys duplicate-free. -/
theorem nodup_keys_addToBuckets (acc : List Bucket) (e : TrendEntry)
    (h : (acc.map Bucket.key).Nodup) :
    ((addToBuckets acc e).map Bucket.key).Nodup := by
  unfold addToBuckets
  by_cases hk : keepEntry e = true
  · rw [if_pos hk]
    by_cases hany : (acc.any (fun b => decide (b.key = monthKey e))) = true
    · rw [if_pos hany, List.map_map]
      have hcong : (Bucket.key ∘ fun b : Bucket =>
          if b.key = monthKey e then addBal b e else b) = Bucket.key := by
        funext b
        simp only [Function.comp_apply]
        by_cases hb : b.key = monthKey e
        · rw [if_pos hb, addBal_key]
        · rw [if_neg hb]
      rw [hcong]
      exact h
    · rw [if_neg hany, List.map_append]
      rw [List.nodup_append]
      refine ⟨h, List.nodup_singleton _, ?_⟩
      intro x hx hx2
      simp only [List.map_cons, List.map_nil, List.mem_singleton, addBal_key] at hx2
      obtain ⟨b, hb, hbk⟩ := List.mem_map.mp hx
      rw [hx2] at hbk
      exact hany (List.any_eq_true.mpr ⟨b, hb, by simp [hbk]⟩)
  · rw [if_neg hk]
    exact h

/-- The aggregation fold keeps bucket keys duplicate-free. -/
theorem nodup_keys_foldl (entries : List TrendEntry) :
    ∀ acc : List Bucket, (acc.map Bucket.key).Nodup →
      ((entries.foldl addToBuckets acc).map Bucket.key).Nodup := by
  induction entries with
  | nil => intro acc h; exact h
  | cons e rest ih =>
      intro acc h
      rw [List.foldl_cons]
      exact ih (addToBuckets acc e) (nodup_keys_addToBuckets acc e h)

/-- With duplicate-free keys, lookup by the key of a member finds that
member. -/
theorem findBucket_of_mem (acc : List Bucket) (b : Bucket)
    (hnd : (acc.map Bucket.key).Nodup) (hb : b ∈ acc) :
    findBucket acc b.key = some b := by
  induction acc with
  | nil => cases hb
  | cons x rest ih =>
      rw [List.map_cons, List.nodup_cons] at hnd
      obtain ⟨hx, hnd2⟩ := hnd
      rcases List.mem_cons.mp hb with hbe | hbr
      · subst hbe
        unfold findBucket
        rw [List.find?_cons_of_pos _ (by simp)]
      · have hxk : ¬(x.key = b.key) := by
          intro hc
          exact hx (hc ▸ List.mem_map_of_mem Bucket.key hbr)
        unfold findBucket
        rw [List.find?_cons_of_neg _ (by simp [hxk])]
        exact ih hnd2 hbr

/-- Inserting into the sort keeps the list a permutation. -/
theorem insertPoint_perm (p : TrendPoint) (l : List TrendPoint) :
    List.Perm (insertPoint p l) (p :: l) := by
  induction l with
  | nil => exact List.Perm.refl _
  | cons q rest ih =>
      unfold insertPoint
      by_cases hc : dateLeB p.date q.date = true
      · rw [if_pos hc]
      · rw [if_neg hc]
        exact (ih.cons q).trans (List.Perm.swap p q rest)

/-- The sort is a permutation. -/
theorem sortPoints_perm (l : List TrendPoint) : List.Perm (sortPoints l) l := by
  induction l with
  | nil => exact List.Perm.refl _
  | cons p rest ih =>
      show List.Perm (insertPoint p (sortPoints rest)) (p :: rest)
      exact (insertPoint_perm p (sortPoints rest)).trans (ih.cons p)

/-- Inserting into a sorted list keeps it sorted. -/
theorem insertPoint_sorted (p : TrendPoint) (l : List TrendPoint)
    (h : List.Pairwise (fun a b : TrendPoint => dateLeB a.date b.date = true) l) :
    List.Pairwise (fun a b : TrendPoint => dateLeB a.date b.date = true)
      (insertPoint p l) := by
  induction l with
  | nil => simp [insertPoint]
  | cons q rest ih =>
      obtain ⟨hq, hrest⟩ := List.pairwise_cons.mp h
      unfold insertPoint
      by_cases hc : dateLeB p.date q.date = true
      · rw [if_pos hc]
        refine List.pairwise_cons.mpr ⟨?_, h⟩
        intro x hx
        rcases List.mem_cons.mp hx with hxq | hxr
        · rw [hxq]; exact hc
        · exact dateLeB_trans hc (hq x hxr)
      · rw [if_neg hc]
        have hqp : dateLeB q.date p.date = true :=
          dateLeB_total p.date q.date (Bool.eq_false_iff.mpr hc)
        refine List.pairwise_cons.mpr ⟨?_, ih hrest⟩
        intro x hx
        have hx2 := (insertPoint_perm p rest).mem_iff.mp hx
        rcases List.mem_cons.mp hx2 with hxp | hxr
        · rw [hxp]; exact hqp
        · exact hq x hxr

/-- The sort output is sorted (non-strictly). -/
theorem sortPoints_sorted (l : List TrendPoint) :
    List.Pairwise (fun a b : TrendPoint => dateLeB a.date b.date = true)
      (sortPoints l) := by
  induction l with
  | nil => simp [sortPoints]
  | cons p rest ih => exact insertPoint_sorted p (sortPoints rest) ih

/-- C2: the trend series — an empty entry list yields an empty series
(not an error); the output is strictly ascending by first-of-month UTC
date; every record carries a first-of-month date of a month holding some
kept entry (balanceInBase not null and a category present), its
totalAssets and totalLiabilities are the filtered per-month sums and
netWorth their difference; and every month holding a kept entry yields
exactly one record. -/
theorem c2_trend_characterization (entries : List TrendEntry) :
    netWorthTrend [] = [] ∧
    List.Pairwise (fun p q : TrendPoint => dateLtB p.date q.date = true)
      (netWorthTrend entries) ∧
    (∀ p ∈ netWorthTrend entries,
        p.date.day = 1 ∧ p.date.msOfDay = 0 ∧
        keptMonthMem entries (p.date.year, p.date.month) = true ∧
        p.totalAssets = assetSumAt entries (p.date.year, p.date.month) ∧
        p.totalLiabilities = liabSumAt entries (p.date.year, p.date.month) ∧
        p.netWorth = p.totalAssets - p.totalLiabilities) ∧
    (∀ k : Int × Nat, keptMonthMem entries k = true →
        ∃ p ∈ netWorthTrend entries, p.date = ⟨k.1, k.2, 1, 0⟩) := by
  have hch : ∀ k, findBucket (entries.foldl addToBuckets []) k =
      (if keptMonthMem entries k = true then
        some ⟨k, assetSumAt entries k, liabSumAt entries k⟩
      else none) := by
    intro k
    have h := foldl_addToBuckets_spec entries [] k
    simpa [findBucket] using h
  have hnd : ((entries.foldl addToBuckets []).map Bucket.key).Nodup :=
    nodup_keys_foldl entries [] (by simp)
  have hNT : netWorthTrend entries =
      sortPoints ((entries.foldl addToBuckets []).map (fun b =>
        ⟨⟨b.key.1, b.key.2, 1, 0⟩, b.totalAssets, b.totalLiabilities,
          b.totalAssets - b.totalLiabilities⟩)) := rfl
  have hperm := sortPoints_perm ((entries.foldl addToBuckets []).map (fun b =>
    (⟨⟨b.key.1, b.key.2, 1, 0⟩, b.totalAssets, b.totalLiabilities,
      b.totalAssets - b.totalLiabilities⟩ : TrendPoint)))
  have hbchar : ∀ b ∈ entries.foldl addToBuckets [],
      keptMonthMem entries b.key = true ∧
      b.totalAssets = assetSumAt entries b.key ∧
      b.totalLiabilities = liabSumAt entries b.key := by
    intro b hb
    have hf := findBucket_of_mem (entries.foldl addToBuckets []) b hnd hb
    rw [hch b.key] at hf
    by_cases hkm : keptMonthMem entries b.key = true
    · rw [if_pos hkm] at hf
      simp only [Option.some.injEq] at hf
      obtain ⟨-, hA, hL⟩ := Bucket.mk.injEq _ _ _ _ _ _ ▸ hf
      exact ⟨hkm, hA.symm, hL.symm⟩
    · rw [if_neg hkm] at hf
      cases hf
  have hdnodup : ((netWorthTrend entries).map (fun p => p.date)).Nodup := by
    rw [hNT]
    have hp2 := hperm.map (fun p : TrendPoint => p.date)
    rw [hp2.nodup_iff]
    rw [List.map_map]
    have hium : (((fun p : TrendPoint => p.date) ∘ fun b : Bucket =>
        (⟨⟨b.key.1, b.key.2, 1, 0⟩, b.totalAssets, b.totalLiabilities,
          b.totalAssets - b.totalLiabilities⟩ : TrendPoint))) =
        ((fun k : Int × Nat => (⟨k.1, k.2, 1, 0⟩ : DateU)) ∘ Bucket.key) := rfl
    rw [hium, ← List.map_map]
    refine List.Nodup.map ?_ hnd
    intro k1 k2 hk
    simp only [DateU.mk.injEq] at hk
    exact Prod.ext hk.1 hk.2.1
  refine ⟨rfl, ?_, ?_, ?_⟩
  · have hsorted : List.Pairwise (fun a b : TrendPoint => dateLeB a.date b.date = true)
        (netWorthTrend entries) := by
      rw [hNT]; exact sortPoints_sorted _
    exact (hsorted.and (List.pairwise_map.mp hdnodup)).imp
      (fun h => dateLtB_of_leB_ne h.1 h.2)
  · intro p hp
    rw [hNT] at hp
    have hp2 := hperm.mem_iff.mp hp
    obtain ⟨b, hb, hbp⟩ := List.mem_map.mp hp2
    obtain ⟨hkm, hA, hL⟩ := hbchar b hb
    subst hbp
    exact ⟨rfl, rfl, hkm, hA, hL, rfl⟩
  · intro k hk
    have hf := hch k
    rw [if_pos hk] at hf
    have hbmem : (⟨k, assetSumAt entries k, liabSumAt entries k⟩ : Bucket) ∈
        entries.foldl addToBuckets [] :=
      List.mem_of_find?_eq_some hf
    refine ⟨⟨⟨k.1, k.2, 1, 0⟩, assetSumAt entries k, liabSumAt entries k,
      assetSumAt entries k - liabSumAt entries k⟩, ?_, rfl⟩
    rw [hNT]
    exact hperm.mem_iff.mpr (List.mem_map.mpr ⟨_, hbmem, rfl⟩)

/-- C2 witness: the spec example months (January and February 2024) each
yield exactly one record in the concrete trend series. -/
theorem c2_trend_characterization_witness :
    keptMonthMem trendSample (2024, 0) = true ∧
    keptMonthMem trendSample (2024, 1) = true ∧
    (∃ p ∈ netWorthTrend trendSample, p.date = ⟨2024, 0, 1, 0⟩) ∧
    (∃ p ∈ netWorthTrend trendSample, p.date = ⟨2024, 1, 1, 0⟩) :=
  ⟨rfl, rfl,
    (c2_trend_characterization trendSample).2.2.2 (2024, 0) rfl,
    (c2_trend_characterization trendSample).2.2.2 (2024, 1) rfl⟩
